import Mathlib

/-!
# HisaabKitaab — verification of the account/transaction API logic

Shallow embedding of the HisaabKitaab serverless route handlers:

* `getAccountForUser` — `src/lib/account-helpers.ts` (current version)
* `getAccountForUserV2` — the historical version of `account-helpers`
  shipped alongside it (the "membership-first" variant)
* the create-transaction route, the voice auto-save loop, the advisor
  tool-call loop, the members DELETE handler, the export-statement
  formatting, and the cron `process-calls` poll-and-update loop.

The relational store is modelled as in-memory lists of rows, one structure
per table, with Supabase query chains (`.eq`/`.neq`/`.order`/`.limit`)
translated to `List.filter` / `List.insertionSort` / `List.take`.
External services (Clerk, Bedrock, Twilio) are modelled as oracles where a
claim depends on their outcome and elided otherwise; service-role database
reads/writes are deterministic (the embedding does not model connection
failures, except the per-row transaction-insert outcome in the voice
auto-save loop, which the source inspects row by row).
-/

namespace HisaabKitaab

/-- A row of `profiles` (fields used by the handlers). `email` and
`full_name` are nullable in the schema. -/
structure Profile where
  id : Nat
  email : Option String
  full_name : Option String
  deriving Repr, DecidableEq

/-- A row of `accounts`: ledger container with a mode
(`individual`/`family`/`shop`) and an owner. `created_at` is the insertion
timestamp the handlers sort on. -/
structure Account where
  id : Nat
  name : String
  mode : String
  owner_id : Nat
  created_at : Nat
  deriving Repr, DecidableEq

/-- A row of `account_members`: join entity between `accounts` and
`profiles`, with `profile_id` null until an invited user signs up. -/
structure AccountMember where
  id : Nat
  account_id : Nat
  profile_id : Option Nat
  role : String
  accepted : Bool
  invited_email : Option String
  joined_at : Nat
  created_at : Nat
  deriving Repr, DecidableEq

/-- A row of `categories` (fields read by the transaction handlers). -/
structure Category where
  id : Nat
  name_en : String
  is_default : Bool
  deriving Repr, DecidableEq

/-- The slice of the relational store touched by the embedded handlers.
`nextId` is the monotone counter standing in for fresh ids / insertion
timestamps assigned by the database. -/
structure DB where
  accounts : List Account
  members : List AccountMember
  categories : List Category
  nextId : Nat
  deriving Repr, DecidableEq

/-- JavaScript `a || b` on a nullable string: `b` when `a` is null or
empty (falsy), else the string. -/
def jsOrStr (a : Option String) (b : String) : String :=
  match a with
  | some s => if s = "" then b else s
  | none => b

/-- `profile.email?.toLowerCase() || ""` from the source (toLowerCase as
per-character lowering). -/
def emailLower (p : Profile) : String :=
  (p.email.map fun e => String.mk (e.data.map Char.toLower)).getD ""

/-- Sort key used by `.order("joined_at", { ascending: true })`. -/
def joinedLE (a b : AccountMember) : Prop := a.joined_at ≤ b.joined_at

instance : DecidableRel joinedLE := fun a b => Nat.decLe a.joined_at b.joined_at
instance : IsTotal AccountMember joinedLE := ⟨fun a b => Nat.le_total a.joined_at b.joined_at⟩
instance : IsTrans AccountMember joinedLE := ⟨fun _ _ _ => Nat.le_trans⟩

/-- Sort key used by `.order("created_at", { ascending: true })` on
`account_members` (the historical helper sorts memberships this way). -/
def memberCreatedLE (a b : AccountMember) : Prop := a.created_at ≤ b.created_at

instance : DecidableRel memberCreatedLE := fun a b => Nat.decLe a.created_at b.created_at
instance : IsTotal AccountMember memberCreatedLE := ⟨fun a b => Nat.le_total a.created_at b.created_at⟩
instance : IsTrans AccountMember memberCreatedLE := ⟨fun _ _ _ => Nat.le_trans⟩

/-- Sort key used by `.order("created_at", { ascending: true })` on
`accounts`. -/
def accountCreatedLE (a b : Account) : Prop := a.created_at ≤ b.created_at

instance : DecidableRel accountCreatedLE := fun a b => Nat.decLe a.created_at b.created_at
instance : IsTotal Account accountCreatedLE := ⟨fun a b => Nat.le_total a.created_at b.created_at⟩
instance : IsTrans Account accountCreatedLE := ⟨fun _ _ _ => Nat.le_trans⟩

/-- Result record of `getAccountForUser` (the `profile` component is the
input profile and is omitted; the `error` branches of the source are DB
failures, which the deterministic store does not produce). -/
structure ResolveResult where
  account : Option Account
  role : Option String
  deriving Repr, DecidableEq

/-- Step 2 of `getAccountForUser` (`account-helpers.ts` lines 56-63): the
accepted non-owner memberships of the profile, ordered by `joined_at`
ascending, limited to 1. -/
def invitedQuery (db : DB) (p : Profile) : List AccountMember :=
  ((db.members.filter fun m =>
      m.profile_id == some p.id && m.accepted && !(m.role == "owner")).insertionSort
    joinedLE).take 1

/-- Steps 2's lookup of the invited membership's account (`lines 65-81`):
the earliest accepted non-owner membership paired with its account, or
`none` when either is missing (the source falls through in both cases). -/
def invitedResolved (db : DB) (p : Profile) : Option (AccountMember × Account) :=
  match (invitedQuery db p).head? with
  | none => none
  | some m => (db.accounts.find? fun a => a.id == m.account_id).map fun a => (m, a)

/-- Step 3's query (`lines 84-89`): accounts owned by the profile, ordered
by `created_at` ascending, limited to 1. -/
def ownedQuery (db : DB) (p : Profile) : List Account :=
  ((db.accounts.filter fun a => a.owner_id == p.id).insertionSort accountCreatedLE).take 1

/-- `.upsert(..., { onConflict: "account_id,profile_id" })` on
`account_members` (`lines 95-106`): update the conflicting row's payload
fields, or insert a fresh row. -/
def upsertMember (db : DB) (accId pid : Nat) (role : String) (accepted : Bool)
    (email : Option String) : DB :=
  if db.members.any fun m => m.account_id == accId && m.profile_id == some pid then
    { db with members := db.members.map fun m =>
        if m.account_id == accId && m.profile_id == some pid then
          { m with role := role, accepted := accepted, invited_email := email }
        else m }
  else
    { db with
        members := db.members ++
          [{ id := db.nextId, account_id := accId, profile_id := some pid, role := role,
             accepted := accepted, invited_email := email, joined_at := db.nextId,
             created_at := db.nextId }],
        nextId := db.nextId + 1 }

/-- Step 4's queries (`lines 117-144`): all accepted memberships of the
profile sorted by `joined_at` ascending (no role filter, no limit). -/
def acceptedMemberships (db : DB) (p : Profile) : List AccountMember :=
  (db.members.filter fun m => m.profile_id == some p.id && m.accepted).insertionSort joinedLE

/-- Step 4's `roleMap` loop: later memberships overwrite earlier ones, so
the lookup is the last matching membership's role. -/
def roleLookup (ms : List AccountMember) (accId : Nat) : Option String :=
  (ms.reverse.find? fun m => m.account_id == accId).map (·.role)

/-- Step 4 (`lines 117-144`): the first account (in table order, as the
un-ordered `.in("id", accountIds)` query returns) among the accepted
memberships' accounts, with `roleMap[chosen.id] || "member"`. -/
def memberResolved (db : DB) (p : Profile) : Option (Account × String) :=
  let memberships := acceptedMemberships db p
  if memberships.isEmpty then none
  else
    let accountIds := memberships.map (·.account_id)
    match (db.accounts.filter fun a => accountIds.contains a.id).head? with
    | none => none
    | some chosen => some (chosen, (roleLookup memberships chosen.id).getD "member")

/-- Step 5 (`lines 147-173`): create a `"My Account"` individual-mode
account owned by the profile, then insert the owner membership row. -/
def createAccountBranch (db : DB) (p : Profile) : ResolveResult × DB :=
  let acc : Account :=
    { id := db.nextId, name := "My Account", mode := "individual", owner_id := p.id,
      created_at := db.nextId }
  let db1 : DB := { db with accounts := db.accounts ++ [acc], nextId := db.nextId + 1 }
  let mem : AccountMember :=
    { id := db1.nextId, account_id := acc.id, profile_id := some p.id, role := "owner",
      accepted := true, invited_email := some (emailLower p), joined_at := db1.nextId,
      created_at := db1.nextId }
  let db2 : DB := { db1 with members := db1.members ++ [mem], nextId := db1.nextId + 1 }
  (⟨some acc, some "owner"⟩, db2)

/-- `getAccountForUser` from `src/lib/account-helpers.ts`, steps 2-5 (the
profile get-or-create of step 1 resolves `p`; it touches only the
`profiles` table). Returns the resolution result and the post-state. -/
def getAccountForUser (db : DB) (p : Profile) : ResolveResult × DB :=
  match invitedResolved db p with
  | some (m, a) => (⟨some a, some m.role⟩, db)
  | none =>
    match (ownedQuery db p).head? with
    | some chosen =>
        (⟨some chosen, some "owner"⟩,
         upsertMember db chosen.id p.id "owner" true (some (emailLower p)))
    | none =>
      match memberResolved db p with
      | some (a, role) => (⟨some a, some role⟩, db)
      | none => createAccountBranch db p

/-! ## The historical version of `account-helpers` (`getAccountForUserV2`)

The repository also ships an older `getAccountForUser` which resolves in a
different order: any accepted membership first (preferring family/shop-mode
accounts, via the `accounts(...)` FK join), then owned accounts (again
preferring family/shop), then auto-creation of a `"Personal Account"`. -/

/-- The FK join `accounts(id, name, mode, owner_id)` on an
`account_members` row. -/
def joinedAccount (db : DB) (m : AccountMember) : Option Account :=
  db.accounts.find? fun a => a.id == m.account_id

/-- V2 step 2's query: all accepted memberships of the profile ordered by
`created_at` ascending. -/
def acceptedMembershipsV2 (db : DB) (p : Profile) : List AccountMember :=
  (db.members.filter fun m => m.profile_id == some p.id && m.accepted).insertionSort
    memberCreatedLE

/-- V2 step 4: create a `"Personal Account"` individual-mode account and
its owner membership row (no `invited_email` in this version). -/
def createAccountBranchV2 (db : DB) (p : Profile) : ResolveResult × DB :=
  let acc : Account :=
    { id := db.nextId, name := "Personal Account", mode := "individual", owner_id := p.id,
      created_at := db.nextId }
  let db1 : DB := { db with accounts := db.accounts ++ [acc], nextId := db.nextId + 1 }
  let mem : AccountMember :=
    { id := db1.nextId, account_id := acc.id, profile_id := some p.id, role := "owner",
      accepted := true, invited_email := none, joined_at := db1.nextId,
      created_at := db1.nextId }
  let db2 : DB := { db1 with members := db1.members ++ [mem], nextId := db1.nextId + 1 }
  (⟨some acc, some "owner"⟩, db2)

/-- The historical `getAccountForUser` (steps 2-4; step 1 resolves `p` as
in the current version): accepted memberships first, preferring ones whose
joined account has mode `family`/`shop`, then owned accounts with the same
preference, then auto-creation. The returned account is the FK-joined row,
which is null when the membership's account is missing. -/
def getAccountForUserV2 (db : DB) (p : Profile) : ResolveResult × DB :=
  match acceptedMembershipsV2 db p with
  | m0 :: rest =>
    let memberships := m0 :: rest
    let familyMembership := memberships.find? fun m =>
      match joinedAccount db m with
      | some a => a.mode == "family" || a.mode == "shop"
      | none => false
    let chosen := familyMembership.getD m0
    (⟨joinedAccount db chosen, some chosen.role⟩, db)
  | [] =>
    match (db.accounts.filter fun a => a.owner_id == p.id).insertionSort accountCreatedLE with
    | a0 :: rest =>
      let owned := a0 :: rest
      let familyAccount := owned.find? fun a => a.mode == "family" || a.mode == "shop"
      (⟨some (familyAccount.getD a0), some "owner"⟩, db)
    | [] => createAccountBranchV2 db p

/-! ## Transactions: the shared insert shape and category resolution -/

/-- The row shape of the `transactions` inserts performed by the three
entry points (manual create-transaction, voice auto-save, advisor
`create_transaction` tool). -/
structure TxInsert where
  account_id : Nat
  type : String
  amount : ℚ
  category_id : Option Nat
  description_en : String
  transaction_date : String
  added_by : Nat
  source : String
  deriving Repr, DecidableEq

/-- Does `sub` occur at the start of `s`? (helper for the substring
test). -/
def charsStart : List Char → List Char → Bool
  | [], _ => true
  | _ :: _, [] => false
  | c :: cs, d :: ds => c == d && charsStart cs ds

/-- Does `sub` occur anywhere in `s`? (helper for the substring test). -/
def charsOccur (sub : List Char) : List Char → Bool
  | [] => sub.isEmpty
  | d :: ds => charsStart sub (d :: ds) || charsOccur sub ds

/-- Models JavaScript `String.prototype.includes` (substring test); the
empty string is contained in everything. -/
def strIncludes (s sub : String) : Bool :=
  charsOccur sub.data s.data

/-- Models JavaScript `String.prototype.toLowerCase` (per-character
lowering). -/
def lowerString (s : String) : String :=
  ⟨s.data.map Char.toLower⟩

/-- The category-match predicate shared by the three transaction entry
points: case-insensitive containment in either direction. -/
def matchesCategory (c : Category) (categoryName : String) : Bool :=
  strIncludes (lowerString c.name_en) (lowerString categoryName) ||
    strIncludes (lowerString categoryName) (lowerString c.name_en)

/-- `.from("categories").select(...).eq("is_default", true)`. -/
def defaultCategories (db : DB) : List Category :=
  db.categories.filter (·.is_default)

/-- The category-id fallback chain shared by the three entry points:
`match?.id || categories.find(c => c.name_en === "Other")?.id || null`. -/
def resolveCategoryId (cats : List Category) (categoryName : String) : Option Nat :=
  match cats.find? (fun c => matchesCategory c categoryName) with
  | some c => some c.id
  | none => (cats.find? fun c => c.name_en == "Other").map (·.id)

/-- JavaScript `Math.round` (round half toward positive infinity,
`⌊x + 1/2⌋`), computed on the rational's reduced fraction: with `x =
num/den` and `den > 0`, `⌊x + 1/2⌋ = (2*num + den).fdiv (2*den)`. -/
def jsRound (q : ℚ) : ℤ :=
  Int.fdiv (2 * q.num + q.den) (2 * q.den)

/-- JS truthiness of an optional string request field (`!type`). -/
def jsTruthyStr (o : Option String) : Bool :=
  match o with
  | some s => !s.isEmpty
  | none => false

/-- JS truthiness of an optional numeric request field (`!amount`). -/
def jsTruthyNum (o : Option ℚ) : Bool :=
  match o with
  | some q => !(q == 0)
  | none => false

/-- The create-transaction POST handler (`part_004` lines 7-89), after
authentication, with `p` the caller's profile and `today` standing for
`getTodayPKT()`. Returns (HTTP status, inserted row if any, post-state).
The missing-`type`/`amount` validation returns 400; otherwise the account
is resolved and the insert proceeds with the resolved (possibly null)
category id. -/
def createTransactionHandler (db : DB) (p : Profile) (ty : Option String)
    (amount : Option ℚ) (category : Option String) (description : Option String)
    (date : Option String) (source : Option String) (today : String) :
    Nat × Option TxInsert × DB :=
  if !jsTruthyStr ty || !jsTruthyNum amount then (400, none, db)
  else
    match getAccountForUser db p with
    | (r, db1) =>
      match r.account with
      | none => (500, none, db1)
      | some account =>
        let categoryName := jsOrStr category "Other"
        let categoryId := resolveCategoryId (defaultCategories db1) categoryName
        let t : TxInsert :=
          { account_id := account.id, type := ty.getD "",
            amount := ((jsRound (amount.getD 0) : ℤ) : ℚ),
            category_id := categoryId, description_en := jsOrStr description "",
            transaction_date := jsOrStr date today, added_by := p.id,
            source := jsOrStr source "manual" }
        (200, some t, db1)

/-- Input of the advisor `create_transaction` tool (`type` and `amount`
are required by the tool schema; the rest optional). -/
structure ToolInput where
  type : String
  amount : ℚ
  category : Option String
  description : Option String
  date : Option String
  deriving Repr, DecidableEq

/-- `executeToolCall("create_transaction", ...)` from
`advisor-agentic/route.ts` lines 153-190: resolve the account, resolve the
category with the same fallback chain, insert with `source: "auto"`.
Returns (success flag, inserted row if any, post-state). -/
def advisorCreateTransaction (db : DB) (p : Profile) (input : ToolInput)
    (today : String) : Bool × Option TxInsert × DB :=
  match getAccountForUser db p with
  | (r, db1) =>
    match r.account with
    | none => (false, none, db1)
    | some account =>
      let categoryName := jsOrStr input.category "Other"
      let categoryId := resolveCategoryId (defaultCategories db1) categoryName
      let t : TxInsert :=
        { account_id := account.id, type := input.type, amount := input.amount,
          category_id := categoryId, description_en := jsOrStr input.description "",
          transaction_date := jsOrStr input.date today, added_by := p.id,
          source := "auto" }
      (true, some t, db1)

/-! ## Voice auto-save (`process-voice-agentic`, `part_006` lines 146-214) -/

/-- A parsed transaction after the normalization map of `part_006`
lines 147-154 (`saved` starts `false` and is tracked separately below). -/
structure ParsedTx where
  type : String
  amount : ℚ
  category : String
  description : String
  confidence : ℚ
  deriving Repr, DecidableEq

/-- The source literal `0.4` of the auto-save confidence check, written
as `mkRat 4 10`; `voiceThreshold_eq` identifies it with `(0.4 : ℚ)`. -/
def VOICE_CONFIDENCE_THRESHOLD : ℚ := mkRat 4 10

/-- The auto-save loop body (`part_006` lines 169-198) over the indexed
normalized transactions. `insertOk i` is the outcome of the `transactions`
insert for index `i` (the source checks `insertError` per row). Returns
(per-index `saved` flags, `savedCount`, inserted rows). -/
def voiceGo (cats : List Category) (accId pid : Nat) (insertOk : Nat → Bool)
    (today : String) : List (Nat × ParsedTx) → List Bool × Nat × List TxInsert
  | [] => ([], 0, [])
  | (i, tx) :: rest =>
    let (flags, cnt, ins) := voiceGo cats accId pid insertOk today rest
    if tx.confidence < VOICE_CONFIDENCE_THRESHOLD || tx.amount ≤ 0 then
      (false :: flags, cnt, ins)
    else
      let categoryId := resolveCategoryId cats tx.category
      let row : TxInsert :=
        { account_id := accId, type := tx.type, amount := tx.amount,
          category_id := categoryId, description_en := jsOrStr (some tx.description) "",
          transaction_date := today, added_by := pid, source := "voice" }
      if insertOk i then (true :: flags, cnt + 1, row :: ins)
      else (false :: flags, cnt, ins)

/-- The `autoSave` branch of the voice handler (`part_006` lines
157-200): resolve account, query default categories, then run the loop.
Returns (saved flags, savedCount, inserted rows, post-state). -/
def autoSaveVoice (db : DB) (p : Profile) (insertOk : Nat → Bool) (today : String)
    (txs : List ParsedTx) : List Bool × Nat × List TxInsert × DB :=
  match getAccountForUser db p with
  | (r, db1) =>
    match r.account with
    | none => (txs.map fun _ => false, 0, [], db1)
    | some account =>
      let cats := defaultCategories db1
      let (flags, cnt, ins) := voiceGo cats account.id p.id insertOk today txs.enum
      (flags, cnt, ins, db1)

/-! ## Statement export (`export-statement/route.ts`) -/

/-- A `transactions` row as read by the export query (the
`categories(...)` join is null when the category reference is dangling). -/
structure TxRow where
  transaction_date : String
  type : String
  amount : ℚ
  category_name_en : Option String
  category_name_ur : Option String
  description_en : Option String
  description_ur : Option String
  source : Option String
  added_by : Option Nat
  deriving Repr, DecidableEq

/-- A formatted statement line (`export-statement/route.ts` lines
124-134). -/
structure FormattedTx where
  date : String
  type : String
  amount : ℚ
  category : String
  categoryUr : String
  description : String
  source : String
  addedBy : String
  deriving Repr, DecidableEq

/-- The per-transaction formatting map of the statement export
(`lines 124-134`). `profileNameMap` is the adder-id → display-name map
built from the account's member profiles; `p` is the requesting profile. -/
def formatTransaction (profileNameMap : List (Nat × String)) (p : Profile)
    (t : TxRow) : FormattedTx :=
  { date := t.transaction_date, type := t.type, amount := t.amount,
    category := jsOrStr t.category_name_en "Other",
    categoryUr := jsOrStr t.category_name_ur "دیگر",
    description := jsOrStr t.description_en "",
    source := jsOrStr t.source "manual",
    addedBy :=
      match t.added_by with
      | some pid => jsOrStr (profileNameMap.lookup pid) "Unknown"
      | none => jsOrStr p.full_name (jsOrStr p.email "User") }

/-! ## Members DELETE handler (`members/route.ts` lines 242-325) -/

/-- The DELETE `/api/members` handler after authentication: `memberId`
from query/body, account resolution, the owner/admin gate, the
same-account target check, the owner-target guard, then
`.delete().eq("id", memberId)`. Returns (HTTP status, post-state). -/
def deleteMemberHandler (db : DB) (p : Profile) (memberId : Option Nat) : Nat × DB :=
  match memberId with
  | none => (400, db)
  | some mid =>
    match getAccountForUser db p with
    | (r, db1) =>
      match r.account, r.role with
      | some account, some role =>
        if role != "owner" && role != "admin" then (403, db1)
        else
          match db1.members.find? fun m => m.id == mid && m.account_id == account.id with
          | none => (404, db1)
          | some target =>
            if target.role == "owner" then (403, db1)
            else (200, { db1 with members := db1.members.filter fun m => !(m.id == mid) })
      | _, _ => (500, db1)

/-! ## Cron `process-calls` (`part_004` lines 105-250) -/

/-- A row of `scheduled_calls` (fields touched by the cron handler). -/
structure ScheduledCall where
  id : Nat
  account_id : Nat
  status : String
  scheduled_at : Nat
  phone_number : String
  member_name : String
  twilio_sid : Option String
  message_text : Option String
  deriving Repr, DecidableEq

/-- The due filter: `.eq("status", "pending").lte("scheduled_at", now)`. -/
def duePred (now : Nat) (c : ScheduledCall) : Bool :=
  c.status == "pending" && c.scheduled_at ≤ now

/-- Sort key of `.order("scheduled_at", { ascending: true })`. -/
def schedLE (a b : ScheduledCall) : Prop := a.scheduled_at ≤ b.scheduled_at

instance : DecidableRel schedLE := fun a b => Nat.decLe a.scheduled_at b.scheduled_at
instance : IsTotal ScheduledCall schedLE := ⟨fun a b => Nat.le_total a.scheduled_at b.scheduled_at⟩
instance : IsTrans ScheduledCall schedLE := ⟨fun _ _ _ => Nat.le_trans⟩

/-- The cron selection (`part_004` lines 121-127): pending, due, ascending
by `scheduled_at`, at most 10. -/
def dueCalls (calls : List ScheduledCall) (now : Nat) : List ScheduledCall :=
  ((calls.filter (duePred now)).insertionSort schedLE).take 10

/-- The per-call status write (`lines 218-239`): `callOk` is whether
processing the row succeeded (the Twilio call was placed); `sid`/`msg` are
the Twilio call sid and the generated Urdu message (external oracles). On
success the row becomes `completed` with sid and message; on a thrown
error it becomes `failed`. -/
def applyCallUpdate (callOk : Nat → Bool) (sid msg : Nat → String) (c r : ScheduledCall) :
    ScheduledCall :=
  if r.id == c.id then
    if callOk c.id then
      { r with
        status := "completed"
        twilio_sid := some (sid c.id)
        message_text := some (msg c.id) }
    else { r with status := "failed" }
  else r

/-- The `for (const call of dueCalls)` loop (`lines 156-240`), as repeated
`.update(...).eq("id", call.id)` writes against the table. -/
def runDueCalls (callOk : Nat → Bool) (sid msg : Nat → String) :
    List ScheduledCall → List ScheduledCall → List ScheduledCall
  | [], calls => calls
  | c :: rest, calls => runDueCalls callOk sid msg rest (calls.map (applyCallUpdate callOk sid msg c))

/-- The cron GET handler core (post secret check): select the due rows and
process each, returning the final table and the `processed` counter
(incremented only on success). -/
def processCalls (calls : List ScheduledCall) (now : Nat) (callOk : Nat → Bool)
    (sid msg : Nat → String) : List ScheduledCall × Nat :=
  let due := dueCalls calls now
  (runDueCalls callOk sid msg due calls, (due.filter fun c => callOk c.id).length)

/-! ## Advisor tool-call loop (`advisor-agentic/route.ts` lines 687-749) -/

/-- A content block of a model response (only the `type` discriminator and
the tool name matter to the loop's control flow). -/
structure ContentBlock where
  type : String
  name : String
  deriving Repr, DecidableEq

/-- A Bedrock model response: `stop_reason` and content blocks. -/
structure ModelResponse where
  stop_reason : String
  content : List ContentBlock
  deriving Repr, DecidableEq

/-- `responseBody.content.filter(block => block.type === "tool_use")`. -/
def toolUseBlocks (rb : ModelResponse) : List ContentBlock :=
  rb.content.filter fun b => b.type == "tool_use"

/-- `const MAX_ITERATIONS = 10`. -/
def MAX_ITERATIONS : Nat := 10

/-- The loop state: the per-request iteration counter, the accumulated
tool names (`allToolResults`), and the current `responseBody`. -/
structure LoopState where
  iterations : Nat
  toolNames : List String
  responseBody : ModelResponse
  deriving Repr, DecidableEq

/-- The tool-use loop (`lines 695-749`): while the stop reason is
`tool_use` and the counter is below `MAX_ITERATIONS`, increment the
counter, collect the tool_use blocks (breaking if none), execute them, and
ask the model again. `next k` abstracts the Bedrock round-trip of
iteration `k`. -/
def toolLoop (next : Nat → ModelResponse) (s : LoopState) : LoopState :=
  if h : s.responseBody.stop_reason = "tool_use" ∧ s.iterations < MAX_ITERATIONS then
    let it := s.iterations + 1
    let blocks := toolUseBlocks s.responseBody
    if blocks.isEmpty then { s with iterations := it }
    else
      toolLoop next
        { iterations := it, toolNames := s.toolNames ++ blocks.map (·.name),
          responseBody := next it }
  else s
termination_by MAX_ITERATIONS - s.iterations
decreasing_by
  simp only [MAX_ITERATIONS] at *
  omega

/-! ## Error-response shapes (claim C8) -/

/-- The caught-error JSON body shape: status plus the `error` and
`details` fields (other payload fields are irrelevant to the claim). -/
structure JsonResponse where
  status : Nat
  error : Option String
  details : Option String
  deriving Repr, DecidableEq

/-- Top-level catch of the export-statement GET (`lines 172-178`). -/
def exportStatementCatch (msg : String) : JsonResponse :=
  ⟨500, some "Failed to generate statement", some msg⟩

/-- Top-level catch of the members DELETE (`lines 318-324`). -/
def membersDeleteCatch (msg : String) : JsonResponse :=
  ⟨500, some "Failed to remove member", some msg⟩

/-- Top-level catch of the advisor-agentic POST (`lines 771-777`). -/
def advisorCatch (msg : String) : JsonResponse :=
  ⟨500, some "Failed to get response", some msg⟩

/-- The advisor-agentic POST's inner catch around the first Bedrock
`send` (`part_003` lines 288-294, identical in
`advisor-agentic/route.ts` lines 679-685): the caught `awsError`'s message
is logged but the JSON body carries no `details` field. -/
def advisorBedrockCatch (_msg : String) : JsonResponse :=
  ⟨500, some "AI service error. Please try again.", none⟩

/-- The property claimed of every caught error: an `error` field, a
`details` field holding the exception message, and an HTTP error status. -/
def errorWithDetails (r : JsonResponse) (msg : String) : Prop :=
  r.error.isSome ∧ r.details = some msg ∧ 400 ≤ r.status

/-! ## Shared helper lemmas -/

theorem mem_of_head?_eq_some {α : Type} {l : List α} {a : α} (h : l.head? = some a) :
    a ∈ l := by
  cases l <;> simp_all

theorem getAccountForUser_account_isSome (db : DB) (p : Profile) :
    ((getAccountForUser db p).1.account).isSome := by
  unfold getAccountForUser
  rcases hI : invitedResolved db p with _ | ⟨m, a⟩
  · rcases hO : (ownedQuery db p).head? with _ | chosen
    · rcases hM : memberResolved db p with _ | ⟨a, role⟩
      · simp [createAccountBranch]
      · simp
    · simp
  · simp

theorem mem_invitedQuery {db : DB} {p : Profile} {m : AccountMember}
    (hm : m ∈ invitedQuery db p) :
    m ∈ db.members ∧ m.profile_id = some p.id ∧ m.accepted = true ∧ m.role ≠ "owner" := by
  unfold invitedQuery at hm
  have h1 := List.mem_of_mem_take hm
  have h2 := (List.perm_insertionSort joinedLE _).mem_iff.mp h1
  have h3 := List.mem_filter.mp h2
  obtain ⟨hmem, hpred⟩ := h3
  simp only [Bool.and_eq_true, beq_iff_eq, Bool.not_eq_true', beq_eq_false_iff_ne,
    ne_eq] at hpred
  exact ⟨hmem, hpred.1.1, hpred.1.2, hpred.2⟩

theorem mem_ownedQuery {db : DB} {p : Profile} {a : Account}
    (ha : a ∈ ownedQuery db p) : a ∈ db.accounts ∧ a.owner_id = p.id := by
  unfold ownedQuery at ha
  have h1 := List.mem_of_mem_take ha
  have h2 := (List.perm_insertionSort accountCreatedLE _).mem_iff.mp h1
  have h3 := List.mem_filter.mp h2
  simpa using h3

theorem mem_acceptedMemberships {db : DB} {p : Profile} {m : AccountMember}
    (hm : m ∈ acceptedMemberships db p) :
    m ∈ db.members ∧ m.profile_id = some p.id ∧ m.accepted = true := by
  unfold acceptedMemberships at hm
  have h2 := (List.perm_insertionSort joinedLE _).mem_iff.mp hm
  have h3 := List.mem_filter.mp h2
  simpa using h3

/-! ## Claim C3: the two helper versions are not extensionally equal -/

/-- A profile owning both an earlier individual account and a later
family account, with owner membership rows for both. -/
def profileC3 : Profile := ⟨1, some "a@b.c", none⟩

/-- The database state witnessing the divergence of the two resolvers. -/
def dbC3 : DB :=
  { accounts := [⟨10, "My Account", "individual", 1, 0⟩, ⟨11, "Family", "family", 1, 1⟩]
    members := [⟨20, 10, some 1, "owner", true, none, 0, 0⟩,
                ⟨21, 11, some 1, "owner", true, none, 1, 1⟩]
    categories := []
    nextId := 100 }

/-- C3: the current `getAccountForUser` (invited-membership first, then
earliest owned account) and the historical version in the repository (any
accepted membership first, preferring family/shop-mode accounts) resolve
different accounts for the same user on the same database state. -/
theorem claim3_helper_versions_diverge :
    ∃ (db : DB) (p : Profile),
      (getAccountForUser db p).1.account ≠ (getAccountForUserV2 db p).1.account :=
  ⟨dbC3, profileC3, by decide⟩

/-! ## Claim C4: the advisor tool-call loop is bounded by 10 rounds -/

theorem toolLoop_iterations_bounded (next : Nat → ModelResponse) :
    ∀ (n : Nat) (s : LoopState), MAX_ITERATIONS - s.iterations ≤ n →
      s.iterations ≤ MAX_ITERATIONS →
      (toolLoop next s).iterations ≤ MAX_ITERATIONS := by
  intro n
  induction n with
  | zero =>
    intro s h1 h2
    unfold toolLoop
    split
    · next h =>
      exfalso
      simp only [MAX_ITERATIONS] at *
      omega
    · exact h2
  | succ n ih =>
    intro s h1 h2
    unfold toolLoop
    split
    · next h =>
      dsimp only
      split
      · exact h.2
      · apply ih
        · simp only [MAX_ITERATIONS] at *
          omega
        · exact h.2
    · exact h2

/-- C4: for any sequence of model responses, the advisor tool-calling loop
started with a fresh per-request counter performs at most
`MAX_ITERATIONS = 10` rounds: its final iteration counter, incremented
once per executed round, never exceeds 10, so the loop always terminates
within 10 iterations regardless of the model's responses. -/
theorem claim4_tool_loop_bounded (next : Nat → ModelResponse) (rb : ModelResponse) :
    (toolLoop next { iterations := 0, toolNames := [], responseBody := rb }).iterations ≤
      MAX_ITERATIONS :=
  toolLoop_iterations_bounded next MAX_ITERATIONS _ (by simp) (by simp)

/-! ## Claim C8: caught errors and the `{error, details}` response shape -/

/-- C8 counterexample: the advisor endpoint's catch around the Bedrock
`send` call returns a JSON body with an `error` field but NO `details`
field carrying the caught exception's message, refuting the claim that
every caught error produces `{error, details}`. -/
theorem claim8_counterexample :
    ¬ errorWithDetails (advisorBedrockCatch "connect ETIMEDOUT") "connect ETIMEDOUT" := by
  rintro ⟨-, h, -⟩
  simp [advisorBedrockCatch] at h

/-- C8 (amended): every error reaching the top-level catch block of the
cited JSON handlers (export-statement GET, members DELETE, advisor-agentic
POST) produces a JSON body with an `error` field and a `details` field
holding the caught exception's message, with HTTP status 500; inner catch
blocks such as the advisor's Bedrock-send catch return only an `error`
field. -/
theorem claim8_top_level_catches (msg : String) :
    errorWithDetails (exportStatementCatch msg) msg ∧
    errorWithDetails (membersDeleteCatch msg) msg ∧
    errorWithDetails (advisorCatch msg) msg :=
  ⟨⟨rfl, rfl, by norm_num [exportStatementCatch]⟩,
   ⟨rfl, rfl, by norm_num [membersDeleteCatch]⟩,
   ⟨rfl, rfl, by norm_num [advisorCatch]⟩⟩

/-! ## Claim C10: the voice auto-save thresholds and `savedCount` -/

/-- The save decision the claim describes: a parsed transaction is saved
iff its confidence is at least 0.4, its amount is strictly positive, and
the database insert for its index succeeded. -/
def saveDecision (ok : Nat → Bool) (it : Nat × ParsedTx) : Bool :=
  ((0.4 : ℚ) ≤ it.2.confidence && 0 < it.2.amount) && ok it.1

theorem voiceThreshold_eq : VOICE_CONFIDENCE_THRESHOLD = (0.4 : ℚ) := by
  unfold VOICE_CONFIDENCE_THRESHOLD
  rw [Rat.mkRat_eq_div]
  norm_num

theorem voiceGo_spec (cats : List Category) (accId pid : Nat) (ok : Nat → Bool)
    (today : String) (l : List (Nat × ParsedTx)) :
    (voiceGo cats accId pid ok today l).1 = l.map (saveDecision ok) ∧
    (voiceGo cats accId pid ok today l).2.1 =
      ((voiceGo cats accId pid ok today l).1).count true ∧
    (voiceGo cats accId pid ok today l).2.2.length =
      (voiceGo cats accId pid ok today l).2.1 := by
  induction l with
  | nil => simp [voiceGo]
  | cons head rest ih =>
    obtain ⟨i, tx⟩ := head
    obtain ⟨ih1, ih2, ih3⟩ := ih
    by_cases h1 : tx.confidence < (0.4 : ℚ) <;> by_cases h2 : tx.amount ≤ 0
    · simp [voiceGo, voiceThreshold_eq, h1, h2, ih1, ih2, ih3, saveDecision, not_le.mpr h1]
    · simp [voiceGo, voiceThreshold_eq, h1, h2, ih1, ih2, ih3, saveDecision, not_le.mpr h1]
    · simp [voiceGo, voiceThreshold_eq, h1, h2, ih1, ih2, ih3, saveDecision, not_lt.mpr h2]
    · cases hok : ok i <;>
        simp [voiceGo, voiceThreshold_eq, h1, h2, ih1, ih2, ih3, saveDecision, not_lt.mp h1,
          not_le.mp h2, hok, List.count_cons]

/-- C10: with `autoSave` set, the voice handler marks a parsed transaction
saved exactly when its confidence is at least 0.4, its amount is strictly
positive, and its insert succeeded; transactions failing either threshold
keep `saved = false`; and `savedCount` equals the number of transactions
marked saved, which equals the number of rows actually inserted. -/
theorem claim10_voice_autosave (db : DB) (p : Profile) (ok : Nat → Bool)
    (today : String) (txs : List ParsedTx) :
    (autoSaveVoice db p ok today txs).1 = txs.enum.map (saveDecision ok) ∧
    (autoSaveVoice db p ok today txs).2.1 =
      ((autoSaveVoice db p ok today txs).1).count true ∧
    (autoSaveVoice db p ok today txs).2.2.1.length =
      (autoSaveVoice db p ok today txs).2.1 := by
  have hs := getAccountForUser_account_isSome db p
  obtain ⟨acc, hacc⟩ := Option.isSome_iff_exists.mp hs
  have hv := voiceGo_spec (defaultCategories (getAccountForUser db p).2) acc.id p.id ok
    today txs.enum
  simp only [autoSaveVoice]
  rcases hg : getAccountForUser db p with ⟨r, db1⟩
  rw [hg] at hacc hv
  dsimp only at hacc hv ⊢
  rw [hacc]
  exact hv

/-! ## Claim C1: resolution priority order of `getAccountForUser` -/

theorem invitedResolved_inv {db : DB} {p : Profile} {m : AccountMember} {a : Account}
    (h : invitedResolved db p = some (m, a)) :
    (invitedQuery db p).head? = some m ∧
    db.accounts.find? (fun x => x.id == m.account_id) = some a := by
  unfold invitedResolved at h
  rcases hh : (invitedQuery db p).head? with _ | m'
  · rw [hh] at h
    exact absurd h (by simp)
  · rw [hh] at h
    rw [Option.map_eq_some'] at h
    obtain ⟨a', hfind, heq⟩ := h
    rw [Prod.mk.injEq] at heq
    obtain ⟨rfl, rfl⟩ := heq
    exact ⟨rfl, hfind⟩

theorem memberResolved_inv {db : DB} {p : Profile} {a : Account} {role : String}
    (h : memberResolved db p = some (a, role)) :
    a ∈ db.accounts ∧ ∃ m ∈ acceptedMemberships db p, m.account_id = a.id := by
  unfold memberResolved at h
  by_cases hne : (acceptedMemberships db p).isEmpty
  · rw [if_pos hne] at h
    exact absurd h (by simp)
  · rw [if_neg hne] at h
    dsimp only at h
    rcases hh : (db.accounts.filter fun x =>
        ((acceptedMemberships db p).map (·.account_id)).contains x.id).head? with _ | chosen
    · rw [hh] at h
      exact absurd h (by simp)
    · rw [hh] at h
      injection h with h'
      rw [Prod.mk.injEq] at h'
      obtain ⟨rfl, -⟩ := h'
      have hmem := mem_of_head?_eq_some hh
      obtain ⟨hacc, hpred⟩ := List.mem_filter.mp hmem
      obtain ⟨m, hm, hmid⟩ := List.mem_map.mp (by simpa using hpred)
      exact ⟨hacc, m, hm, hmid⟩

/-- C1: `getAccountForUser` resolves in the stated priority order: the
accepted non-owner (invited) membership's account first; else the
profile's owned account with role `"owner"`; else the account of any
accepted membership; and only when none of these resolves does it create a
new `"My Account"` individual-mode account owned by the profile and return
it with role `"owner"`. -/
theorem claim1_account_priority (db : DB) (p : Profile) :
    (∀ m a, invitedResolved db p = some (m, a) →
      (getAccountForUser db p).1.account = some a ∧
      (getAccountForUser db p).1.role = some m.role ∧
      (getAccountForUser db p).2 = db ∧
      m ∈ db.members ∧ m.profile_id = some p.id ∧ m.accepted = true ∧ m.role ≠ "owner" ∧
      a ∈ db.accounts ∧ a.id = m.account_id) ∧
    (invitedResolved db p = none →
      ∀ a, (ownedQuery db p).head? = some a →
        (getAccountForUser db p).1.account = some a ∧
        (getAccountForUser db p).1.role = some "owner" ∧
        a ∈ db.accounts ∧ a.owner_id = p.id) ∧
    (invitedResolved db p = none → (ownedQuery db p).head? = none →
      ∀ a role, memberResolved db p = some (a, role) →
        (getAccountForUser db p).1.account = some a ∧
        (getAccountForUser db p).1.role = some role ∧
        (getAccountForUser db p).2 = db ∧
        a ∈ db.accounts ∧
        ∃ m ∈ db.members, m.profile_id = some p.id ∧ m.accepted = true ∧
          m.account_id = a.id) ∧
    (invitedResolved db p = none → (ownedQuery db p).head? = none →
      memberResolved db p = none →
      ∃ a, (getAccountForUser db p).1.account = some a ∧
        (getAccountForUser db p).1.role = some "owner" ∧
        a.mode = "individual" ∧ a.owner_id = p.id ∧ a.name = "My Account" ∧
        (getAccountForUser db p).2.accounts = db.accounts ++ [a]) := by
  refine ⟨?_, ?_, ?_, ?_⟩
  · intro m a h
    obtain ⟨hh, hfind⟩ := invitedResolved_inv h
    have hm := mem_invitedQuery (mem_of_head?_eq_some hh)
    have hamem := List.mem_of_find?_eq_some hfind
    have haid : a.id = m.account_id := by
      have := List.find?_some hfind
      simpa using this
    refine ⟨?_, ?_, ?_, hm.1, hm.2.1, hm.2.2.1, hm.2.2.2, hamem, haid⟩ <;>
      simp [getAccountForUser, h]
  · intro hI a hO
    have ha := mem_ownedQuery (mem_of_head?_eq_some hO)
    refine ⟨?_, ?_, ha.1, ha.2⟩ <;> simp [getAccountForUser, hI, hO]
  · intro hI hO a role hM
    obtain ⟨hacc, m, hm, hmid⟩ := memberResolved_inv hM
    have hmm := mem_acceptedMemberships hm
    refine ⟨?_, ?_, ?_, hacc, m, hmm.1, hmm.2.1, hmm.2.2, hmid⟩ <;>
      simp [getAccountForUser, hI, hO, hM]
  · intro hI hO hM
    refine ⟨⟨db.nextId, "My Account", "individual", p.id, db.nextId⟩, ?_⟩
    simp [getAccountForUser, hI, hO, hM, createAccountBranch]

/-- Witness profile for the concrete resolution scenarios. -/
def profileW : Profile := ⟨1, some "u@x.y", none⟩

/-- Invited-membership scenario: profile 1 is an accepted member of an
account owned by someone else. -/
def dbW_inv : DB :=
  { accounts := [⟨30, "Family", "family", 2, 0⟩]
    members := [⟨5, 30, some 1, "member", true, some "u@x.y", 0, 0⟩]
    categories := []
    nextId := 100 }

/-- Owned-account scenario: profile 1 owns an account, no memberships. -/
def dbW_owned : DB :=
  { accounts := [⟨40, "Mine", "individual", 1, 0⟩]
    members := []
    categories := []
    nextId := 100 }

/-- Fallback-membership scenario: profile 1 has an accepted owner-role
membership of an account it does not own. -/
def dbW_member : DB :=
  { accounts := [⟨50, "Shop", "shop", 9, 0⟩]
    members := [⟨6, 50, some 1, "owner", true, none, 0, 0⟩]
    categories := []
    nextId := 100 }

/-- Empty store: the auto-creation scenario. -/
def dbW_empty : DB := { accounts := [], members := [], categories := [], nextId := 0 }

/-- Owned-account scenario satisfying the owner-membership invariant. -/
def dbW_owned2 : DB :=
  { accounts := [⟨40, "Mine", "individual", 1, 0⟩]
    members := [⟨7, 40, some 1, "owner", true, some "u@x.y", 0, 0⟩]
    categories := []
    nextId := 100 }

theorem claim1_account_priority_witness :
    (getAccountForUser dbW_inv profileW).1.account = some ⟨30, "Family", "family", 2, 0⟩ ∧
    (getAccountForUser dbW_owned profileW).1.role = some "owner" ∧
    (getAccountForUser dbW_member profileW).1.account = some ⟨50, "Shop", "shop", 9, 0⟩ ∧
    (∃ a, (getAccountForUser dbW_empty profileW).1.account = some a ∧
      (getAccountForUser dbW_empty profileW).1.role = some "owner" ∧
      a.mode = "individual" ∧ a.owner_id = profileW.id ∧ a.name = "My Account" ∧
      (getAccountForUser dbW_empty profileW).2.accounts = dbW_empty.accounts ++ [a]) :=
  ⟨((claim1_account_priority dbW_inv profileW).1
      ⟨5, 30, some 1, "member", true, some "u@x.y", 0, 0⟩ ⟨30, "Family", "family", 2, 0⟩
      (by decide)).1,
   (((claim1_account_priority dbW_owned profileW).2.1 (by decide)
      ⟨40, "Mine", "individual", 1, 0⟩ (by decide))).2.1,
   (((claim1_account_priority dbW_member profileW).2.2.1 (by decide) (by decide)
      ⟨50, "Shop", "shop", 9, 0⟩ "owner" (by decide))).1,
   (claim1_account_priority dbW_empty profileW).2.2.2 (by decide) (by decide) (by decide)⟩

/-! ## Claim C2: the owner-membership invariant -/

/-- The invariant's per-account content: a membership row linking the
account's owner with role `"owner"`. -/
def ownerRow (members : List AccountMember) (a : Account) : Prop :=
  ∃ m ∈ members, m.account_id = a.id ∧ m.profile_id = some a.owner_id ∧ m.role = "owner"

/-- Every account's owner has an `"owner"` membership row. -/
def ownerInvariant (db : DB) : Prop :=
  ∀ a ∈ db.accounts, ownerRow db.members a

instance (members : List AccountMember) (a : Account) : Decidable (ownerRow members a) := by
  unfold ownerRow
  infer_instance

instance (db : DB) : Decidable (ownerInvariant db) := by
  unfold ownerInvariant
  infer_instance

theorem ownerRow_append {members extra : List AccountMember} {a : Account}
    (h : ownerRow members a) : ownerRow (members ++ extra) a := by
  obtain ⟨m, hm, h1, h2, h3⟩ := h
  exact ⟨m, List.mem_append_left _ hm, h1, h2, h3⟩

theorem upsertMember_accounts (db : DB) (accId pid : Nat) (role : String) (acc : Bool)
    (email : Option String) :
    (upsertMember db accId pid role acc email).accounts = db.accounts := by
  unfold upsertMember
  split <;> rfl

theorem upsertMember_has_row (db : DB) (accId pid : Nat) (role : String) (acc : Bool)
    (email : Option String) :
    ∃ m ∈ (upsertMember db accId pid role acc email).members,
      m.account_id = accId ∧ m.profile_id = some pid ∧ m.role = role ∧ m.accepted = acc := by
  unfold upsertMember
  split
  · next hany =>
    obtain ⟨m0, hm0, hk⟩ := List.any_eq_true.mp hany
    have hk' := hk
    simp only [Bool.and_eq_true, beq_iff_eq] at hk'
    refine ⟨{ m0 with role := role, accepted := acc, invited_email := email }, ?_,
      hk'.1, hk'.2, rfl, rfl⟩
    dsimp only
    exact List.mem_map.mpr ⟨m0, hm0, by rw [if_pos hk]⟩
  · exact ⟨_, List.mem_append_right _ (List.mem_singleton_self _), rfl, rfl, rfl, rfl⟩

theorem upsertMember_preserves_ownerRow {db : DB} {a : Account} (accId pid : Nat)
    (email : Option String) (h : ownerRow db.members a) :
    ownerRow (upsertMember db accId pid "owner" true email).members a := by
  obtain ⟨m, hm, h1, h2, h3⟩ := h
  unfold upsertMember
  split
  · by_cases hk : (m.account_id == accId && m.profile_id == some pid) = true
    · have hk' := hk
      simp only [Bool.and_eq_true, beq_iff_eq] at hk'
      refine ⟨{ m with role := "owner", accepted := true, invited_email := email },
        List.mem_map.mpr ⟨m, hm, by rw [if_pos hk]⟩, h1, h2, rfl⟩
    · exact ⟨m, List.mem_map.mpr ⟨m, hm, by rw [if_neg hk]⟩, h1, h2, h3⟩
  · exact ⟨m, List.mem_append_left _ hm, h1, h2, h3⟩

/-- C2: `getAccountForUser` preserves the invariant that every account's
owner has an `"owner"` membership row; the account it returns always has
one in the post-state; whenever it returns an owned account it has
upserted the owner membership (role `"owner"`, accepted); and immediately
after auto-creating an account it has inserted such a row. -/
theorem claim2_owner_membership_invariant (db : DB) (p : Profile)
    (h : ownerInvariant db) :
    ownerInvariant (getAccountForUser db p).2 ∧
    (∀ a, (getAccountForUser db p).1.account = some a →
      ownerRow (getAccountForUser db p).2.members a) ∧
    (invitedResolved db p = none → ∀ a, (ownedQuery db p).head? = some a →
      ∃ m ∈ (getAccountForUser db p).2.members,
        m.account_id = a.id ∧ m.profile_id = some p.id ∧ m.role = "owner" ∧
        m.accepted = true) ∧
    (invitedResolved db p = none → (ownedQuery db p).head? = none →
      memberResolved db p = none →
      ∀ a, (getAccountForUser db p).1.account = some a →
        ∃ m ∈ (getAccountForUser db p).2.members,
          m.account_id = a.id ∧ m.profile_id = some p.id ∧ m.role = "owner" ∧
          m.accepted = true) := by
  rcases hI : invitedResolved db p with _ | ⟨m, a⟩
  · rcases hO : (ownedQuery db p).head? with _ | chosen
    · rcases hM : memberResolved db p with _ | ⟨a, role⟩
      · -- creation branch
        refine ⟨?_, ?_, ?_, ?_⟩
        · intro b hb
          simp only [getAccountForUser, hI, hO, hM, createAccountBranch] at hb ⊢
          rcases List.mem_append.mp hb with hb | hb
          · exact ownerRow_append (h b hb)
          · rw [List.mem_singleton.mp hb]
            exact ⟨_, List.mem_append_right _ (List.mem_singleton_self _), rfl, rfl, rfl⟩
        · intro b hb
          simp only [getAccountForUser, hI, hO, hM, createAccountBranch,
            Option.some.injEq] at hb ⊢
          rw [← hb]
          exact ⟨_, List.mem_append_right _ (List.mem_singleton_self _), rfl, rfl, rfl⟩
        · intro _ b hO'
          exact absurd hO' (by simp)
        · intro _ _ _ b hb
          simp only [getAccountForUser, hI, hO, hM, createAccountBranch,
            Option.some.injEq] at hb ⊢
          rw [← hb]
          exact ⟨_, List.mem_append_right _ (List.mem_singleton_self _), rfl, rfl, rfl, rfl⟩
      · -- fallback-membership branch: the state is unchanged
        obtain ⟨hacc, _⟩ := memberResolved_inv hM
        refine ⟨?_, ?_, ?_, ?_⟩
        · intro b hb
          simp only [getAccountForUser, hI, hO, hM] at hb ⊢
          exact h b hb
        · intro b hb
          simp only [getAccountForUser, hI, hO, hM, Option.some.injEq] at hb ⊢
          rw [← hb]
          exact h a hacc
        · intro _ b hO'
          exact absurd hO' (by simp)
        · intro _ _ hM'
          exact absurd hM' (by simp)
    · -- owned-account branch: the owner membership is upserted
      have hch := mem_ownedQuery (mem_of_head?_eq_some hO)
      refine ⟨?_, ?_, ?_, ?_⟩
      · intro b hb
        simp only [getAccountForUser, hI, hO] at hb ⊢
        rw [upsertMember_accounts] at hb
        exact upsertMember_preserves_ownerRow _ _ _ (h b hb)
      · intro b hb
        simp only [getAccountForUser, hI, hO, Option.some.injEq] at hb ⊢
        rw [← hb]
        obtain ⟨mrow, hmrow, r1, r2, r3, _⟩ := upsertMember_has_row db chosen.id p.id
          "owner" true (some (emailLower p))
        exact ⟨mrow, hmrow, r1, by rw [r2, hch.2], r3⟩
      · intro _ b hO'
        rw [Option.some.injEq] at hO'
        subst hO'
        simp only [getAccountForUser, hI, hO]
        obtain ⟨mrow, hmrow, r1, r2, r3, r4⟩ := upsertMember_has_row db chosen.id p.id
          "owner" true (some (emailLower p))
        exact ⟨mrow, hmrow, r1, r2, r3, r4⟩
      · intro _ hO' _
        exact absurd hO' (by simp)
  · -- invited branch: the state is unchanged
    obtain ⟨hh, hfind⟩ := invitedResolved_inv hI
    have hamem := List.mem_of_find?_eq_some hfind
    refine ⟨?_, ?_, ?_, ?_⟩
    · intro b hb
      simp only [getAccountForUser, hI] at hb ⊢
      exact h b hb
    · intro b hb
      simp only [getAccountForUser, hI, Option.some.injEq] at hb ⊢
      rw [← hb]
      exact h a hamem
    · intro hI' _ _
      exact absurd hI' (by simp)
    · intro hI' _ _
      exact absurd hI' (by simp)

theorem claim2_owner_membership_invariant_witness :
    ownerInvariant dbW_empty ∧
    ownerInvariant (getAccountForUser dbW_empty profileW).2 ∧
    (∃ m ∈ (getAccountForUser dbW_owned2 profileW).2.members,
      m.account_id = 40 ∧ m.profile_id = some profileW.id ∧ m.role = "owner" ∧
      m.accepted = true) :=
  ⟨by decide,
   (claim2_owner_membership_invariant dbW_empty profileW (by decide)).1,
   by
    have hr := (claim2_owner_membership_invariant dbW_owned2 profileW (by decide)).2.2.1
      (by decide) ⟨40, "Mine", "individual", 1, 0⟩ (by decide)
    exact hr⟩

/-! ## Claim C6: silent fallbacks on partial failure -/

/-- C6: a failed category match never aborts a transaction insert — the
insert proceeds with the `"Other"` default category's id (or a null
`category_id` when even that is absent) in both the manual
create-transaction handler and the advisor `create_transaction` tool, and
the statement export labels a transaction whose adder's profile cannot be
resolved with the member name `"Unknown"`. -/
theorem claim6_silent_fallbacks :
    (∀ (cats : List Category) (name : String),
      (∀ c ∈ cats, matchesCategory c name = false) →
      resolveCategoryId cats name = (cats.find? fun c => c.name_en == "Other").map (·.id)) ∧
    (∀ (db : DB) (p : Profile) (ty : Option String) (amount : Option ℚ)
        (category description date source : Option String) (today : String),
      jsTruthyStr ty = true → jsTruthyNum amount = true →
      ∃ t, createTransactionHandler db p ty amount category description date source today =
          (200, some t, (getAccountForUser db p).2) ∧
        t.category_id =
          resolveCategoryId (defaultCategories (getAccountForUser db p).2)
            (jsOrStr category "Other")) ∧
    (∀ (pmap : List (Nat × String)) (p : Profile) (t : TxRow) (pid : Nat),
      t.added_by = some pid → pmap.lookup pid = none →
      (formatTransaction pmap p t).addedBy = "Unknown") ∧
    (∀ (db : DB) (p : Profile) (input : ToolInput) (today : String),
      ∃ t, advisorCreateTransaction db p input today =
          (true, some t, (getAccountForUser db p).2) ∧
        t.category_id =
          resolveCategoryId (defaultCategories (getAccountForUser db p).2)
            (jsOrStr input.category "Other")) := by
  refine ⟨?_, ?_, ?_, ?_⟩
  · intro cats name hno
    have hfind : cats.find? (fun c => matchesCategory c name) = none :=
      List.find?_eq_none.mpr fun c hc => by rw [hno c hc]; simp
    unfold resolveCategoryId
    rw [hfind]
  · intro db p ty amount category description date source today h1 h2
    obtain ⟨acc, hacc⟩ := Option.isSome_iff_exists.mp (getAccountForUser_account_isSome db p)
    simp only [createTransactionHandler, h1, h2, Bool.not_true, Bool.or_self, Bool.false_eq_true,
      if_false]
    rcases hg : getAccountForUser db p with ⟨r, db1⟩
    rw [hg] at hacc
    dsimp only at hacc ⊢
    rw [hacc]
    exact ⟨_, rfl, rfl⟩
  · intro pmap p t pid h1 h2
    simp [formatTransaction, h1, h2, jsOrStr]
  · intro db p input today
    obtain ⟨acc, hacc⟩ := Option.isSome_iff_exists.mp (getAccountForUser_account_isSome db p)
    simp only [advisorCreateTransaction]
    rcases hg : getAccountForUser db p with ⟨r, db1⟩
    rw [hg] at hacc
    dsimp only at hacc ⊢
    rw [hacc]
    exact ⟨_, rfl, rfl⟩

theorem claim6_silent_fallbacks_witness :
    (resolveCategoryId [⟨1, "Other", true⟩, ⟨2, "Food", true⟩] "zzqy" = some 1) ∧
    (∃ t, createTransactionHandler dbW_owned2 profileW (some "expense") (some 100) none none
        none none "2026-01-01" =
        (200, some t, (getAccountForUser dbW_owned2 profileW).2) ∧
      t.category_id =
        resolveCategoryId (defaultCategories (getAccountForUser dbW_owned2 profileW).2)
          (jsOrStr none "Other")) ∧
    (formatTransaction [(3, "Ali")] profileW
      ⟨"2026-01-01", "expense", 5, none, none, none, none, none, some 8⟩).addedBy =
      "Unknown" := by
  refine ⟨?_, ?_, ?_⟩
  · have h := claim6_silent_fallbacks.1 [⟨1, "Other", true⟩, ⟨2, "Food", true⟩] "zzqy"
      (by decide)
    rw [h]
    decide
  · exact claim6_silent_fallbacks.2.1 dbW_owned2 profileW (some "expense") (some 100) none
      none none none "2026-01-01" (by decide) (by decide)
  · exact claim6_silent_fallbacks.2.2.1 [(3, "Ali")] profileW
      ⟨"2026-01-01", "expense", 5, none, none, none, none, none, some 8⟩ 8 rfl (by decide)

/-! ## Claim C7: every inserted transaction carries the resolved account id -/

theorem voiceGo_inserted_account (cats : List Category) (accId pid : Nat)
    (ok : Nat → Bool) (today : String) :
    ∀ (l : List (Nat × ParsedTx)) (t : TxInsert),
      t ∈ (voiceGo cats accId pid ok today l).2.2 → t.account_id = accId := by
  intro l
  induction l with
  | nil =>
    intro t ht
    simp [voiceGo] at ht
  | cons head rest ih =>
    obtain ⟨i, tx⟩ := head
    intro t ht
    simp only [voiceGo] at ht
    split at ht
    · exact ih t ht
    · split at ht
      · rcases List.mem_cons.mp ht with h | h
        · rw [h]
        · exact ih t h
      · exact ih t ht

/-- C7: whatever account `getAccountForUser` resolves for the requesting
user is exactly the `account_id` written by every transaction insert of
the three entry points — manual create-transaction, the advisor
`create_transaction` tool, and the voice auto-save loop — so each created
transaction belongs to the single resolved account. -/
theorem claim7_single_account (db : DB) (p : Profile) (ty : Option String)
    (amount : Option ℚ) (category description date source : Option String)
    (input : ToolInput) (ok : Nat → Bool) (today : String) (txs : List ParsedTx)
    (acc : Account) (hacc : (getAccountForUser db p).1.account = some acc) :
    (∀ t, (createTransactionHandler db p ty amount category description date source
        today).2.1 = some t → t.account_id = acc.id) ∧
    (∀ t, (advisorCreateTransaction db p input today).2.1 = some t →
      t.account_id = acc.id) ∧
    (∀ t ∈ (autoSaveVoice db p ok today txs).2.2.1, t.account_id = acc.id) := by
  rcases hg : getAccountForUser db p with ⟨r, db1⟩
  rw [hg] at hacc
  dsimp only at hacc
  refine ⟨?_, ?_, ?_⟩
  · intro t ht
    simp only [createTransactionHandler, hg] at ht
    split at ht
    · simp at ht
    · simp only [hacc, Option.some.injEq] at ht
      rw [← ht]
  · intro t ht
    simp only [advisorCreateTransaction, hg, hacc, Option.some.injEq] at ht
    rw [← ht]
  · intro t ht
    simp only [autoSaveVoice, hg, hacc] at ht
    exact voiceGo_inserted_account _ _ _ _ _ _ t ht

theorem claim7_single_account_witness :
    ((⟨40, "expense", (100 : ℚ), none, "", "2026-01-01", 1, "manual"⟩ : TxInsert).account_id =
      (⟨40, "Mine", "individual", 1, 0⟩ : Account).id) ∧
    ((⟨40, "expense", (50 : ℚ), none, "", "2026-01-01", 1, "auto"⟩ : TxInsert).account_id =
      (⟨40, "Mine", "individual", 1, 0⟩ : Account).id) ∧
    ((⟨40, "expense", (10 : ℚ), none, "", "2026-01-01", 1, "voice"⟩ : TxInsert).account_id =
      (⟨40, "Mine", "individual", 1, 0⟩ : Account).id) :=
  have h := claim7_single_account dbW_owned2 profileW (some "expense") (some 100) none none
    none none ⟨"expense", 50, none, none, none⟩ (fun _ => true) "2026-01-01"
    [⟨"expense", 10, "Food", "", 1⟩] ⟨40, "Mine", "individual", 1, 0⟩ (by decide)
  ⟨h.1 _ (by decide), h.2.1 _ (by decide), h.2.2 _ (by decide)⟩

/-! ## Claim C9: the members DELETE handler never deletes an owner row -/

/-- C9: for every DELETE `/api/members` request, a caller whose resolved
role is neither `"owner"` nor `"admin"` gets 403 with the store unchanged;
a target membership not found in the caller's resolved account gets 404
with the store unchanged; a target membership with role `"owner"` gets 403
with the store unchanged; and any membership row actually removed is a
non-owner membership of the caller's resolved account. -/
theorem claim9_delete_member_guards (db : DB) (p : Profile) (memberId : Option Nat)
    (account : Account) (role : String)
    (hacc : (getAccountForUser db p).1.account = some account)
    (hrole : (getAccountForUser db p).1.role = some role)
    (hnodup : (((getAccountForUser db p).2).members.map (·.id)).Nodup) :
    (¬(role = "owner" ∨ role = "admin") → ∀ mid, memberId = some mid →
      deleteMemberHandler db p memberId = (403, (getAccountForUser db p).2)) ∧
    (∀ mid, memberId = some mid →
      ((getAccountForUser db p).2.members.find? fun m =>
        m.id == mid && m.account_id == account.id) = none →
      (role = "owner" ∨ role = "admin") →
      deleteMemberHandler db p memberId = (404, (getAccountForUser db p).2)) ∧
    (∀ mid target, memberId = some mid →
      ((getAccountForUser db p).2.members.find? fun m =>
        m.id == mid && m.account_id == account.id) = some target →
      target.role = "owner" → (role = "owner" ∨ role = "admin") →
      deleteMemberHandler db p memberId = (403, (getAccountForUser db p).2)) ∧
    (∀ mid, memberId = some mid →
      ∀ m ∈ ((getAccountForUser db p).2).members,
        m ∉ (deleteMemberHandler db p memberId).2.members →
        m.role ≠ "owner" ∧ m.account_id = account.id) := by
  rcases hg : getAccountForUser db p with ⟨r, db1⟩
  rw [hg] at hacc hrole hnodup
  dsimp only at hacc hrole hnodup ⊢
  refine ⟨?_, ?_, ?_, ?_⟩
  · intro hneg mid hmid
    subst hmid
    have h1 : role ≠ "owner" := fun h => hneg (Or.inl h)
    have h2 : role ≠ "admin" := fun h => hneg (Or.inr h)
    simp [deleteMemberHandler, hg, hacc, hrole, h1, h2]
  · intro mid hmid hfind hro
    subst hmid
    rcases hro with h | h <;>
      simp [deleteMemberHandler, hg, hacc, hrole, hfind, h]
  · intro mid target hmid hfind htr hro
    subst hmid
    rcases hro with h | h <;>
      simp [deleteMemberHandler, hg, hacc, hrole, hfind, htr, h]
  · intro mid hmid m hm hnot
    subst hmid
    simp only [deleteMemberHandler, hg, hacc, hrole] at hnot
    by_cases hrc : (role != "owner" && role != "admin") = true
    · rw [if_pos hrc] at hnot
      exact absurd hm hnot
    · rw [if_neg hrc] at hnot
      rcases hfind : db1.members.find? fun x => x.id == mid && x.account_id == account.id with
        _ | target
      · rw [hfind] at hnot
        exact absurd hm hnot
      · rw [hfind] at hnot
        dsimp only at hnot
        by_cases htr : (target.role == "owner") = true
        · rw [if_pos htr] at hnot
          exact absurd hm hnot
        · rw [if_neg htr] at hnot
          have hmid' : m.id = mid := by
            by_contra hne
            exact hnot (List.mem_filter.mpr ⟨hm, by simp [hne]⟩)
          have htmem := List.mem_of_find?_eq_some hfind
          have htpred := List.find?_some hfind
          simp only [Bool.and_eq_true, beq_iff_eq] at htpred
          have heq : m = target :=
            List.inj_on_of_nodup_map hnodup hm htmem (by rw [hmid', htpred.1])
          rw [heq]
          refine ⟨?_, htpred.2⟩
          intro hc
          exact htr (by simp [hc])

/-- Family account with an owner row (profile 1) and a plain member row
(profile 2). -/
def dbW_del : DB :=
  { accounts := [⟨60, "Fam", "family", 1, 0⟩]
    members := [⟨8, 60, some 1, "owner", true, none, 0, 0⟩,
                ⟨9, 60, some 2, "member", true, none, 1, 1⟩]
    categories := []
    nextId := 100 }

/-- The invited member (profile 2) of `dbW_del`. -/
def profileW2 : Profile := ⟨2, none, none⟩

theorem claim9_delete_member_guards_witness :
    (deleteMemberHandler dbW_del profileW2 (some 9) =
      (403, (getAccountForUser dbW_del profileW2).2)) ∧
    (deleteMemberHandler dbW_del profileW (some 99) =
      (404, (getAccountForUser dbW_del profileW).2)) ∧
    (deleteMemberHandler dbW_del profileW (some 8) =
      (403, (getAccountForUser dbW_del profileW).2)) ∧
    ((⟨9, 60, some 2, "member", true, none, 1, 1⟩ : AccountMember).role ≠ "owner" ∧
      (⟨9, 60, some 2, "member", true, none, 1, 1⟩ : AccountMember).account_id =
        (⟨60, "Fam", "family", 1, 0⟩ : Account).id) :=
  ⟨(claim9_delete_member_guards dbW_del profileW2 (some 9) ⟨60, "Fam", "family", 1, 0⟩
      "member" (by decide) (by decide) (by decide)).1 (by decide) 9 rfl,
   (claim9_delete_member_guards dbW_del profileW (some 99) ⟨60, "Fam", "family", 1, 0⟩
      "owner" (by decide) (by decide) (by decide)).2.1 99 rfl (by decide) (Or.inl rfl),
   (claim9_delete_member_guards dbW_del profileW (some 8) ⟨60, "Fam", "family", 1, 0⟩
      "owner" (by decide) (by decide) (by decide)).2.2.1 8
      ⟨8, 60, some 1, "owner", true, some "u@x.y", 0, 0⟩ rfl (by decide) rfl (Or.inl rfl),
   (claim9_delete_member_guards dbW_del profileW (some 9) ⟨60, "Fam", "family", 1, 0⟩
      "owner" (by decide) (by decide) (by decide)).2.2.2 9 rfl
      ⟨9, 60, some 2, "member", true, none, 1, 1⟩ (by decide) (by decide)⟩

/-! ## Claim C5: the cron poll-and-update loop -/

theorem mem_dueCalls {calls : List ScheduledCall} {now : Nat} {c : ScheduledCall}
    (hc : c ∈ dueCalls calls now) :
    c ∈ calls ∧ c.status = "pending" ∧ c.scheduled_at ≤ now := by
  unfold dueCalls at hc
  have h1 := List.mem_of_mem_take hc
  have h2 := (List.perm_insertionSort schedLE _).mem_iff.mp h1
  have h3 := List.mem_filter.mp h2
  unfold duePred at h3
  simp only [Bool.and_eq_true, beq_iff_eq, decide_eq_true_eq] at h3
  exact ⟨h3.1, h3.2.1, h3.2.2⟩

theorem applyCallUpdate_id (callOk : Nat → Bool) (sid msg : Nat → String)
    (c r : ScheduledCall) : (applyCallUpdate callOk sid msg c r).id = r.id := by
  unfold applyCallUpdate
  split
  · split <;> rfl
  · rfl

theorem runDueCalls_length (callOk : Nat → Bool) (sid msg : Nat → String) :
    ∀ (due calls : List ScheduledCall),
      (runDueCalls callOk sid msg due calls).length = calls.length := by
  intro due
  induction due with
  | nil => intro calls; rfl
  | cons d rest ih =>
    intro calls
    rw [runDueCalls, ih, List.length_map]

theorem runDueCalls_mem_of_ne (callOk : Nat → Bool) (sid msg : Nat → String) :
    ∀ (due calls : List ScheduledCall) (c : ScheduledCall), c ∈ calls →
      (∀ d ∈ due, d.id ≠ c.id) → c ∈ runDueCalls callOk sid msg due calls := by
  intro due
  induction due with
  | nil => intro calls c hc _; exact hc
  | cons d rest ih =>
    intro calls c hc hne
    rw [runDueCalls]
    refine ih _ c ?_ fun e he => hne e (List.mem_cons_of_mem d he)
    refine List.mem_map.mpr ⟨c, hc, ?_⟩
    unfold applyCallUpdate
    rw [if_neg]
    simp only [beq_iff_eq]
    exact fun h => hne d (List.mem_cons_self d rest) h.symm

theorem runDueCalls_updates (callOk : Nat → Bool) (sid msg : Nat → String) :
    ∀ (due calls : List ScheduledCall), (due.map (·.id)).Nodup →
      ∀ c ∈ due, c ∈ calls →
        applyCallUpdate callOk sid msg c c ∈ runDueCalls callOk sid msg due calls := by
  intro due
  induction due with
  | nil => intro calls _ c hc; simp at hc
  | cons d rest ih =>
    intro calls hnd c hc hcalls
    rw [List.map_cons, List.nodup_cons] at hnd
    rcases List.mem_cons.mp hc with rfl | hc'
    · rw [runDueCalls]
      refine runDueCalls_mem_of_ne callOk sid msg rest _ _
        (List.mem_map.mpr ⟨c, hcalls, rfl⟩) ?_
      intro e he
      rw [applyCallUpdate_id]
      intro h
      exact hnd.1 (List.mem_map.mpr ⟨e, he, h⟩)
    · rw [runDueCalls]
      refine ih _ hnd.2 c hc' ?_
      refine List.mem_map.mpr ⟨c, hcalls, ?_⟩
      unfold applyCallUpdate
      rw [if_neg]
      simp only [beq_iff_eq]
      intro h
      exact hnd.1 (List.mem_map.mpr ⟨c, hc', h⟩)

theorem dueCalls_ids_nodup {calls : List ScheduledCall} {now : Nat}
    (h : (calls.map (·.id)).Nodup) : ((dueCalls calls now).map (·.id)).Nodup := by
  unfold dueCalls
  have h1 : ((calls.filter (duePred now)).map (·.id)).Nodup :=
    h.sublist ((List.filter_sublist _).map _)
  have h2 : (((calls.filter (duePred now)).insertionSort schedLE).map (·.id)).Nodup :=
    (((List.perm_insertionSort schedLE _).map _).symm).nodup h1
  exact h2.sublist ((List.take_sublist _ _).map _)

/-- C5: each cron invocation selects only pending rows whose
`scheduled_at` is at most the current time, at most 10 of them in
ascending `scheduled_at` order; every selected row is rewritten to
`completed` (with the Twilio sid and message) when its call is placed and
to `failed` when processing throws; rows that are not pending or not yet
due are never selected or modified; and the `processed` counter counts the
successfully placed calls. -/
theorem claim5_cron_process_calls (calls : List ScheduledCall) (now : Nat)
    (callOk : Nat → Bool) (sid msg : Nat → String)
    (hnodup : (calls.map (·.id)).Nodup) :
    (∀ c ∈ dueCalls calls now, c ∈ calls ∧ c.status = "pending" ∧ c.scheduled_at ≤ now) ∧
    (dueCalls calls now).length ≤ 10 ∧
    (dueCalls calls now).Pairwise schedLE ∧
    (processCalls calls now callOk sid msg).1.length = calls.length ∧
    (∀ c ∈ calls, duePred now c = false → c ∈ (processCalls calls now callOk sid msg).1) ∧
    (∀ c ∈ dueCalls calls now,
      applyCallUpdate callOk sid msg c c ∈ (processCalls calls now callOk sid msg).1) ∧
    (processCalls calls now callOk sid msg).2 =
      ((dueCalls calls now).filter fun c => callOk c.id).length := by
  refine ⟨fun c hc => mem_dueCalls hc, ?_, ?_, ?_, ?_, ?_, rfl⟩
  · exact List.length_take_le 10 _
  · exact List.Pairwise.sublist (List.take_sublist _ _)
      (List.sorted_insertionSort schedLE _)
  · exact runDueCalls_length callOk sid msg _ calls
  · intro c hc hdue
    refine runDueCalls_mem_of_ne callOk sid msg _ calls c hc ?_
    intro d hd hid
    obtain ⟨hdcalls, hdst, hdle⟩ := mem_dueCalls hd
    have hdc : d = c := List.inj_on_of_nodup_map hnodup hdcalls hc hid
    rw [hdc] at hdst hdle
    unfold duePred at hdue
    simp only [hdst, hdle, beq_self_eq_true, Bool.true_and, decide_eq_true_eq] at hdue
    exact absurd hdue (by simp)
  · intro c hc
    exact runDueCalls_updates callOk sid msg _ calls (dueCalls_ids_nodup hnodup) c hc
      (mem_dueCalls hc).1

/-- Three scheduled calls: one due and pending, one pending but not yet
due, one already completed. -/
def callsW : List ScheduledCall :=
  [⟨1, 100, "pending", 5, "p1", "A", none, none⟩,
   ⟨2, 100, "pending", 50, "p2", "B", none, none⟩,
   ⟨3, 100, "completed", 1, "p3", "C", none, none⟩]

theorem claim5_cron_process_calls_witness :
    ((⟨1, 100, "completed", 5, "p1", "A", some "SID1", some "MSG1"⟩ : ScheduledCall) ∈
      (processCalls callsW 10 (fun _ => true) (fun _ => "SID1") (fun _ => "MSG1")).1) ∧
    ((⟨2, 100, "pending", 50, "p2", "B", none, none⟩ : ScheduledCall) ∈
      (processCalls callsW 10 (fun _ => true) (fun _ => "SID1") (fun _ => "MSG1")).1) ∧
    ((⟨3, 100, "completed", 1, "p3", "C", none, none⟩ : ScheduledCall) ∈
      (processCalls callsW 10 (fun _ => true) (fun _ => "SID1") (fun _ => "MSG1")).1) :=
  have h := claim5_cron_process_calls callsW 10 (fun _ => true) (fun _ => "SID1")
    (fun _ => "MSG1") (by decide)
  ⟨h.2.2.2.2.2.1 ⟨1, 100, "pending", 5, "p1", "A", none, none⟩ (by decide),
   h.2.2.2.2.1 ⟨2, 100, "pending", 50, "p2", "B", none, none⟩ (by decide) (by decide),
   h.2.2.2.2.1 ⟨3, 100, "completed", 1, "p3", "C", none, none⟩ (by decide) (by decide)⟩

end HisaabKitaab
